import Mathlib

/-!
Verification of the c0mpiled paper-search ranking pipeline
(`src/backend/routes.py`, `src/backend/ml_utils.py`).

Python dict fields coming from the upstream JSON API are modelled with
`JsonField`: a key can be missing from the dict (`absent`), present with the
JSON value `null` (`null`), or present with a value (`value a`).  This
distinction matters because `paper.get(k)` collapses `absent` and `null` to
`None` while `str(paper.get("year", "Unknown"))` does not.

Python floats are idealised as real numbers.  A Python function that can
raise (here: `ZeroDivisionError` in `calculate_hybrid_score` when
`current_year - year + 1 == 0`) is modelled with `Option`: `none` marks the
raise.
-/

inductive JsonField (α : Type) where
  | absent : JsonField α
  | null : JsonField α
  | value : α → JsonField α
deriving DecidableEq

/-- `d.get k` in Python: both a missing key and a `null` value give `None`. -/
def JsonField.toOption {α : Type} : JsonField α → Option α
  | .absent => none
  | .null => none
  | .value a => a

/-- `d.get(k, 0) or 0` in Python: missing, `null` and falsy values all give 0.
On natural numbers `value 0` is already 0, so returning the stored value is
exact. -/
def JsonField.orZero : JsonField Nat → Nat
  | .absent => 0
  | .null => 0
  | .value a => a

/-- The paper record flowing through the pipeline.  `paperId` is required by
the code (`p['paperId']` is an unguarded lookup); `citationCount` is a
non-negative integer per the upstream API contract; `semantic_similarity` and
`hybrid_score` are floats written by the pipeline itself, so they are either
missing or have a real value (`Option`). -/
structure Paper where
  paperId : String
  title : Option String := none
  year : JsonField Int := .absent
  citationCount : JsonField Nat := .absent
  abstract : Option String := none
  semantic_similarity : Option ℝ := none
  hybrid_score : Option ℝ := none

/-- `paper.get("citationCount", 0) or 0`. -/
def citOf (p : Paper) : Nat := p.citationCount.orZero

/-- `paper.get("semantic_similarity", 0.0)`. -/
def simOf (p : Paper) : ℝ := p.semantic_similarity.getD 0

/-- `calculate_hybrid_score` from `src/backend/routes.py`, with the ambient
`datetime.now().year` as the explicit parameter `currentYear`.  Returns
`none` exactly where Python raises `ZeroDivisionError`
(`years_active == 0`). -/
noncomputable def calculate_hybrid_score (currentYear : Int) (paper : Paper) : Option ℝ :=
  let totalCitations : Nat := paper.citationCount.orZero
  let semanticSimilarity : ℝ := paper.semantic_similarity.getD 0
  match paper.year.toOption with
  | none => some 0
  | some publishedYear =>
    let yearsActive : Int := currentYear - publishedYear + 1
    if yearsActive = 0 then none
    else
      let historicalRaw : ℝ := Real.logb 10 ((totalCitations : ℝ) + 1)
      let momentumRaw : ℝ := (totalCitations : ℝ) / (yearsActive : ℝ)
      some (0.4 * historicalRaw + 0.4 * momentumRaw + 0.2 * semanticSimilarity)

/-- The score equation used by several theorems below. -/
lemma calc_formula_aux (currentYear y : Int) (p : Paper)
    (hy : p.year = .value y) (hd : currentYear - y + 1 ≠ 0) :
    calculate_hybrid_score currentYear p =
      some (0.4 * Real.logb 10 ((citOf p : ℝ) + 1)
        + 0.4 * ((citOf p : ℝ) / ((currentYear - y + 1 : Int) : ℝ))
        + 0.2 * simOf p) := by
  unfold calculate_hybrid_score citOf simOf
  rw [hy]
  simp [JsonField.toOption, hd]

/-- C1 -- For a paper with a present integer year and a non-degenerate
denominator, `calculate_hybrid_score` returns exactly the weighted linear
sum `0.4*log10(C+1) + 0.4*(C/(Y_now-Y+1)) + 0.2*S`. -/
theorem hybrid_score_weighted_sum (currentYear y : Int) (p : Paper)
    (hy : p.year = .value y) (hd : currentYear - y + 1 ≠ 0) :
    calculate_hybrid_score currentYear p =
      some (0.4 * Real.logb 10 ((citOf p : ℝ) + 1)
        + 0.4 * ((citOf p : ℝ) / ((currentYear - y + 1 : Int) : ℝ))
        + 0.2 * simOf p) :=
  calc_formula_aux currentYear y p hy hd

/-- Witness for C1 at a concrete paper: year 2020, 100 citations, current
year 2025. -/
theorem hybrid_score_weighted_sum_witness :
    ({ paperId := "A", year := .value 2020, citationCount := .value 100 } : Paper).year
        = .value 2020
    ∧ ((2025 : Int) - 2020 + 1 ≠ 0)
    ∧ calculate_hybrid_score 2025
        { paperId := "A", year := .value 2020, citationCount := .value 100 } =
      some (0.4 * Real.logb 10
          ((citOf { paperId := "A", year := .value 2020, citationCount := .value 100 } : ℝ) + 1)
        + 0.4 * ((citOf { paperId := "A", year := .value 2020, citationCount := .value 100 } : ℝ)
            / (((2025 : Int) - 2020 + 1 : Int) : ℝ))
        + 0.2 * simOf { paperId := "A", year := .value 2020, citationCount := .value 100 }) :=
  ⟨rfl, by decide,
    hybrid_score_weighted_sum 2025 2020 _ rfl (by decide)⟩

/-- C2 (counterexample) -- A paper published one year after the current year
makes `years_active` zero: the Python code raises `ZeroDivisionError`
(modelled as `none`), so `calculate_hybrid_score` does not "return a value
for any present integer year". -/
theorem hybrid_score_divzero_future_year :
    calculate_hybrid_score 2025 { paperId := "A", year := .value 2026 } = none := by
  unfold calculate_hybrid_score
  norm_num [JsonField.toOption]

/-- C2 (amended) -- For every paper whose year is a present integer other
than `currentYear + 1`, the momentum denominator is non-zero and
`calculate_hybrid_score` returns a value. -/
theorem hybrid_score_total_except_next_year (currentYear y : Int) (p : Paper)
    (hy : p.year = .value y) (hne : y ≠ currentYear + 1) :
    calculate_hybrid_score currentYear p ≠ none := by
  have hd : currentYear - y + 1 ≠ 0 := by omega
  unfold calculate_hybrid_score
  rw [hy]
  simp [JsonField.toOption, hd]

/-- Witness for the amended C2 at a concrete future year (2030 > 2025). -/
theorem hybrid_score_total_except_next_year_witness :
    ({ paperId := "A", year := .value 2030 } : Paper).year = .value 2030
    ∧ ((2030 : Int) ≠ 2025 + 1)
    ∧ calculate_hybrid_score 2025 { paperId := "A", year := .value 2030 } ≠ none :=
  ⟨rfl, by decide, hybrid_score_total_except_next_year 2025 2030 _ rfl (by decide)⟩

/-- C4 -- A paper whose `year` key is missing scores exactly 0.0, whatever
its citation count and relevance, without raising. -/
theorem absent_year_zero_score (currentYear : Int) (p : Paper)
    (hy : p.year = .absent) :
    calculate_hybrid_score currentYear p = some 0 := by
  unfold calculate_hybrid_score
  rw [hy]
  simp [JsonField.toOption]

/-- Witness for C4 at a concrete paper with no year but citations and
relevance present. -/
theorem absent_year_zero_score_witness :
    ({ paperId := "A", citationCount := .value 500,
        semantic_similarity := some 1 } : Paper).year = .absent
    ∧ calculate_hybrid_score 2025
        { paperId := "A", citationCount := .value 500, semantic_similarity := some 1 } =
      some 0 :=
  ⟨rfl, absent_year_zero_score 2025 _ rfl⟩

/-- C7 (counterexample) -- With the year fixed at 2027 and current year 2025
(denominator `2025 - 2027 + 1 = -1`), raising the citation count from 0 to
10 strictly lowers the score: the composite score is not monotonically
increasing in citation count for every present year. -/
theorem hybrid_score_not_mono_future_year :
    citOf { paperId := "A", year := .value 2027, citationCount := .value 0 }
      < citOf { paperId := "A", year := .value 2027, citationCount := .value 10 }
    ∧ calculate_hybrid_score 2025
        { paperId := "A", year := .value 2027, citationCount := .value 10 } ≠ none
    ∧ calculate_hybrid_score 2025
        { paperId := "A", year := .value 2027, citationCount := .value 0 } ≠ none
    ∧ (calculate_hybrid_score 2025
          { paperId := "A", year := .value 2027, citationCount := .value 10 }).getD 0
      < (calculate_hybrid_score 2025
          { paperId := "A", year := .value 2027, citationCount := .value 0 }).getD 0 := by
  have h11 : Real.logb 10 11 < 2 := by
    have h1 : Real.logb 10 11 < Real.logb 10 100 :=
      Real.logb_lt_logb (by norm_num) (by norm_num) (by norm_num)
    have h2 : Real.logb 10 100 = 2 := by
      rw [show (100 : ℝ) = 10 ^ (2 : ℕ) by norm_num, Real.logb_pow,
        Real.logb_self_eq_one (by norm_num)]
      norm_num
    linarith
  have e10 := calc_formula_aux 2025 2027
    { paperId := "A", year := .value 2027, citationCount := .value 10 } rfl (by decide)
  have e0 := calc_formula_aux 2025 2027
    { paperId := "A", year := .value 2027, citationCount := .value 0 } rfl (by decide)
  refine ⟨by decide, ?_, ?_, ?_⟩
  · rw [e10]; simp
  · rw [e0]; simp
  · rw [e10, e0]
    simp only [Option.getD_some]
    norm_num [citOf, simOf, JsonField.orZero]
    linarith

/-- C7 (amended) -- For papers identical except in citation count, with the
same present year at most the current year and the same relevance, the
composite score is strictly increasing in citation count. -/
theorem hybrid_score_mono_citations (currentYear y : Int) (p q : Paper)
    (hyp : p.year = .value y) (hyq : q.year = .value y)
    (hyle : y ≤ currentYear)
    (hsim : p.semantic_similarity = q.semantic_similarity)
    (hlt : citOf p < citOf q) :
    (calculate_hybrid_score currentYear p).getD 0
      < (calculate_hybrid_score currentYear q).getD 0 := by
  have hd0 : (0 : Int) < currentYear - y + 1 := by omega
  have hdne : currentYear - y + 1 ≠ 0 := by omega
  have hdR : (0 : ℝ) < ((currentYear - y + 1 : Int) : ℝ) := by exact_mod_cast hd0
  have hcR : (citOf p : ℝ) < (citOf q : ℝ) := by exact_mod_cast hlt
  have hlog : Real.logb 10 ((citOf p : ℝ) + 1) < Real.logb 10 ((citOf q : ℝ) + 1) :=
    Real.logb_lt_logb (by norm_num) (by positivity) (by linarith)
  have hdiv : (citOf p : ℝ) / ((currentYear - y + 1 : Int) : ℝ)
      < (citOf q : ℝ) / ((currentYear - y + 1 : Int) : ℝ) :=
    div_lt_div_of_pos_right hcR hdR
  have hsim' : simOf p = simOf q := by unfold simOf; rw [hsim]
  rw [calc_formula_aux currentYear y p hyp hdne, calc_formula_aux currentYear y q hyq hdne]
  simp only [Option.getD_some]
  rw [hsim']
  linarith

/-- Witness for the amended C7: year 2020 vs current year 2025, citations 5
versus 10, equal relevance. -/
theorem hybrid_score_mono_citations_witness :
    ({ paperId := "A", year := .value 2020, citationCount := .value 5 } : Paper).year
        = .value 2020
    ∧ ({ paperId := "B", year := .value 2020, citationCount := .value 10 } : Paper).year
        = .value 2020
    ∧ ((2020 : Int) ≤ 2025)
    ∧ ({ paperId := "A", year := .value 2020, citationCount := .value 5 } : Paper).semantic_similarity
        = ({ paperId := "B", year := .value 2020, citationCount := .value 10 } : Paper).semantic_similarity
    ∧ citOf { paperId := "A", year := .value 2020, citationCount := .value 5 }
        < citOf { paperId := "B", year := .value 2020, citationCount := .value 10 }
    ∧ (calculate_hybrid_score 2025
          { paperId := "A", year := .value 2020, citationCount := .value 5 }).getD 0
        < (calculate_hybrid_score 2025
          { paperId := "B", year := .value 2020, citationCount := .value 10 }).getD 0 :=
  ⟨rfl, rfl, by decide, rfl, by decide,
    hybrid_score_mono_citations 2025 2020 _ _ rfl rfl (by decide) rfl (by decide)⟩

/-- The deduplication loop at the top of `HybridSearcher.hybrid_rerank`
(`src/backend/ml_utils.py`): `seen_ids` accumulates `p['paperId']`, and a
paper is kept only when its id has not been seen. -/
def hybridDedupGo (seen : List String) : List Paper → List Paper
  | [] => []
  | p :: ps =>
    if p.paperId ∈ seen then hybridDedupGo seen ps
    else p :: hybridDedupGo (p.paperId :: seen) ps

/-- Step 1 of `hybrid_rerank`: deduplication with an initially empty
`seen_ids` set. -/
def hybridDedup (papers : List Paper) : List Paper := hybridDedupGo [] papers

lemma hybridDedupGo_sublist : ∀ (l : List Paper) (seen : List String),
    (hybridDedupGo seen l).Sublist l := by
  intro l
  induction l with
  | nil => intro seen; simp [hybridDedupGo]
  | cons p ps ih =>
    intro seen
    by_cases h : p.paperId ∈ seen
    · rw [hybridDedupGo, if_pos h]
      exact (ih seen).trans (List.sublist_cons_self p ps)
    · rw [hybridDedupGo, if_neg h]
      exact (ih (p.paperId :: seen)).cons₂ p

lemma hybridDedupGo_nodup : ∀ (l : List Paper) (seen : List String),
    ((hybridDedupGo seen l).map Paper.paperId).Nodup
    ∧ ∀ s ∈ seen, s ∉ (hybridDedupGo seen l).map Paper.paperId := by
  intro l
  induction l with
  | nil => intro seen; simp [hybridDedupGo]
  | cons p ps ih =>
    intro seen
    by_cases h : p.paperId ∈ seen
    · rw [hybridDedupGo, if_pos h]
      exact ih seen
    · rw [hybridDedupGo, if_neg h]
      refine ⟨List.nodup_cons.mpr
          ⟨(ih (p.paperId :: seen)).2 p.paperId (List.mem_cons_self _ _),
            (ih (p.paperId :: seen)).1⟩, ?_⟩
      intro s hs hmem
      rcases List.mem_cons.mp hmem with heq | hmem'
      · exact h (heq ▸ hs)
      · exact (ih (p.paperId :: seen)).2 s (List.mem_cons_of_mem _ hs) hmem'

lemma hybridDedupGo_find : ∀ (l : List Paper) (seen : List String) (s : String),
    s ∉ seen →
    (hybridDedupGo seen l).find? (fun p => p.paperId == s)
      = l.find? (fun p => p.paperId == s) := by
  intro l
  induction l with
  | nil => intro seen s _; rfl
  | cons p ps ih =>
    intro seen s hs
    by_cases h : p.paperId ∈ seen
    · rw [hybridDedupGo, if_pos h]
      have hb : (p.paperId == s) = false := by
        simp only [beq_eq_false_iff_ne, ne_eq]
        intro heq
        exact hs (heq ▸ h)
      simp only [List.find?, hb]
      exact ih seen s hs
    · rw [hybridDedupGo, if_neg h]
      by_cases heq : p.paperId = s
      · have hb : (p.paperId == s) = true := by simp [heq]
        simp only [List.find?, hb]
      · have hb : (p.paperId == s) = false := by simp [heq]
        simp only [List.find?, hb]
        refine ih (p.paperId :: seen) s ?_
        simp only [List.mem_cons, not_or]
        exact ⟨fun hss => heq hss.symm, hs⟩

lemma hybridDedupGo_id_of_nodup : ∀ (l : List Paper) (seen : List String),
    (l.map Paper.paperId).Nodup → (∀ p ∈ l, p.paperId ∉ seen) →
    hybridDedupGo seen l = l := by
  intro l
  induction l with
  | nil => intro seen _ _; rfl
  | cons p ps ih =>
    intro seen hnd hdisj
    have hp : p.paperId ∉ seen := hdisj p (List.mem_cons_self _ _)
    rw [hybridDedupGo, if_neg hp]
    congr 1
    refine ih (p.paperId :: seen) (List.nodup_cons.mp hnd).2 ?_
    intro q hq
    simp only [List.mem_cons, not_or]
    refine ⟨?_, hdisj q (List.mem_cons_of_mem _ hq)⟩
    intro heq
    exact (List.nodup_cons.mp hnd).1 (heq ▸ List.mem_map_of_mem Paper.paperId hq)

/-- C6 -- Deduplication keeps the first occurrence of each `paperId`,
preserving order: its output is a subsequence of the input with pairwise
distinct ids, the first match for every id is unchanged, it is idempotent,
its output is no longer than its input, and the empty input gives the empty
output. -/
theorem hybridDedup_spec : ∀ l : List Paper,
    (hybridDedup l).Sublist l
    ∧ ((hybridDedup l).map Paper.paperId).Nodup
    ∧ (∀ s : String,
        (hybridDedup l).find? (fun p => p.paperId == s)
          = l.find? (fun p => p.paperId == s))
    ∧ hybridDedup (hybridDedup l) = hybridDedup l
    ∧ (hybridDedup l).length ≤ l.length
    ∧ hybridDedup ([] : List Paper) = [] := by
  intro l
  have hsub := hybridDedupGo_sublist l []
  have hnd := (hybridDedupGo_nodup l []).1
  refine ⟨hsub, hnd, ?_, ?_, hsub.length_le, rfl⟩
  · intro s
    exact hybridDedupGo_find l [] s (List.not_mem_nil s)
  · exact hybridDedupGo_id_of_nodup (hybridDedup l) [] hnd (by simp)

/-- Python truthiness of `p.get('abstract')`: a missing key or `null` is
falsy, and a string is falsy exactly when it is empty.  Any non-empty
string, including a whitespace-only one, is truthy. -/
def usable (a : Option String) : Bool :=
  match a with
  | none => false
  | some s => !(s == "")

/-- `valid_papers = [p for p in unique_papers if p.get('abstract')]`. -/
def validPapers (l : List Paper) : List Paper := l.filter (fun p => usable p.abstract)

/-- `other_papers = [p for p in unique_papers if not p.get('abstract')]`. -/
def otherPapers (l : List Paper) : List Paper := l.filter (fun p => !(usable p.abstract))

/-- Writing `semantic_similarity` on a record value. -/
def setSim (s : ℝ) (p : Paper) : Paper := { p with semantic_similarity := some s }

/-- `HybridSearcher.hybrid_rerank` (`src/backend/ml_utils.py`).  Steps 2-5
(document construction, in-memory index, BM25 + vector retrievers and the
RRF `QueryFusionRetriever`) live in the LlamaIndex library, outside this
repository; they are abstracted by the oracle `fuse`, which, given the query
and the valid papers (the indexed documents, whose dicts are carried in node
metadata as `original_data`), returns the retrieved nodes as
`(original_data, node.score)` pairs.  The reconstruction loop and the
appending of abstract-less papers with score 0.0 follow the source. -/
def hybrid_rerank (fuse : String → List Paper → List (Paper × ℝ))
    (query : String) (papers : List Paper) : List Paper :=
  let uniquePapers := hybridDedup papers
  let valid := validPapers uniquePapers
  let other := otherPapers uniquePapers
  if valid.isEmpty then
    other.map (setSim 0)
  else
    (fuse query valid).map (fun pr => setSim pr.2 pr.1) ++ other.map (setSim 0)

/-- C3 (counterexample) -- A paper whose abstract is the whitespace-only
string `" "` lands in the *rankable* partition (`valid_papers`), not the
unrankable one: `if p.get('abstract')` tests Python truthiness, and a
non-empty whitespace string is truthy. -/
theorem whitespace_abstract_is_rankable :
    validPapers [{ paperId := "A", abstract := some " " }]
        = [{ paperId := "A", abstract := some " " }]
    ∧ otherPapers [{ paperId := "A", abstract := some " " }] = [] := by
  constructor <;> rfl

/-- C3 (amended) -- A paper of the deduplicated batch whose abstract is
missing, null or the empty string is unrankable: it goes to `other_papers`
and appears in the output with relevance 0.0.  A whitespace-only non-empty
abstract, however, counts as usable. -/
theorem unusable_abstract_zero_relevance :
    (∀ (fuse : String → List Paper → List (Paper × ℝ)) (query : String)
        (papers : List Paper) (p : Paper),
        p ∈ hybridDedup papers → usable p.abstract = false →
        p ∈ otherPapers (hybridDedup papers)
          ∧ setSim 0 p ∈ hybrid_rerank fuse query papers)
    ∧ usable (some " ") = true := by
  refine ⟨?_, rfl⟩
  intro fuse query papers p hp hu
  have hother : p ∈ otherPapers (hybridDedup papers) :=
    List.mem_filter.mpr ⟨hp, by simp [hu]⟩
  refine ⟨hother, ?_⟩
  unfold hybrid_rerank
  by_cases hv : (validPapers (hybridDedup papers)).isEmpty
  · simp only [hv, if_true]
    exact List.mem_map_of_mem (setSim 0) hother
  · simp only [hv, if_false]
    exact List.mem_append_right _ (List.mem_map_of_mem (setSim 0) hother)

/-- Witness for the amended C3: one paper with no abstract at all, with the
trivial retriever oracle. -/
theorem unusable_abstract_zero_relevance_witness :
    ({ paperId := "A" } : Paper) ∈ hybridDedup [{ paperId := "A" }]
    ∧ usable ({ paperId := "A" } : Paper).abstract = false
    ∧ (({ paperId := "A" } : Paper) ∈ otherPapers (hybridDedup [{ paperId := "A" }])
        ∧ setSim 0 { paperId := "A" }
            ∈ hybrid_rerank (fun _ _ => []) "q" [{ paperId := "A" }])
    ∧ usable (some " ") = true :=
  ⟨by simp [hybridDedup, hybridDedupGo], rfl,
    unusable_abstract_zero_relevance.1 (fun _ _ => []) "q" [{ paperId := "A" }]
      { paperId := "A" } (by simp [hybridDedup, hybridDedupGo]) rfl,
    unusable_abstract_zero_relevance.2⟩

/-- C8 -- Provided the retriever only returns nodes built from the indexed
documents (`original_data` of some valid paper), the output of
`hybrid_rerank` is the fused rankable papers followed by every unrankable
paper with relevance exactly 0.0, and every output record has
`semantic_similarity` populated. -/
theorem hybrid_rerank_output_structure
    (fuse : String → List Paper → List (Paper × ℝ)) (query : String)
    (papers : List Paper)
    (hfuse : ∀ pr ∈ fuse query (validPapers (hybridDedup papers)),
      pr.1 ∈ validPapers (hybridDedup papers)) :
    ∃ fused : List Paper,
      hybrid_rerank fuse query papers
          = fused ++ (otherPapers (hybridDedup papers)).map (setSim 0)
      ∧ (∀ p ∈ fused, usable p.abstract = true ∧ p.semantic_similarity ≠ none)
      ∧ (∀ p ∈ (otherPapers (hybridDedup papers)).map (setSim 0),
          usable p.abstract = false ∧ p.semantic_similarity = some 0)
      ∧ (∀ p ∈ hybrid_rerank fuse query papers, p.semantic_similarity ≠ none) := by
  have hothers : ∀ p ∈ (otherPapers (hybridDedup papers)).map (setSim 0),
      usable p.abstract = false ∧ p.semantic_similarity = some 0 := by
    intro p hp
    obtain ⟨q, hq, rfl⟩ := List.mem_map.mp hp
    have : (!(usable q.abstract)) = true := (List.mem_filter.mp hq).2
    exact ⟨by simpa using this, rfl⟩
  by_cases hv : (validPapers (hybridDedup papers)).isEmpty
  · refine ⟨[], ?_, by simp, hothers, ?_⟩
    · simp [hybrid_rerank, hv]
    · intro p hp
      rw [hybrid_rerank] at hp
      simp only [hv, if_true] at hp
      exact ((hothers p hp).2 ▸ Option.some_ne_none 0)
  · refine ⟨(fuse query (validPapers (hybridDedup papers))).map (fun pr => setSim pr.2 pr.1),
      ?_, ?_, hothers, ?_⟩
    · simp [hybrid_rerank, hv]
    · intro p hp
      obtain ⟨pr, hpr, rfl⟩ := List.mem_map.mp hp
      have hval := hfuse pr hpr
      have : usable pr.1.abstract = true := (List.mem_filter.mp hval).2
      exact ⟨this, Option.some_ne_none pr.2⟩
    · intro p hp
      rw [hybrid_rerank] at hp
      simp only [hv, if_false] at hp
      rcases List.mem_append.mp hp with hl | hr
      · obtain ⟨pr, _, rfl⟩ := List.mem_map.mp hl
        exact Option.some_ne_none pr.2
      · exact ((hothers p hr).2 ▸ Option.some_ne_none 0)

/-- Witness for C8: a rankable and an unrankable paper with the empty
retriever oracle (which trivially satisfies the node-provenance
hypothesis). -/
theorem hybrid_rerank_output_structure_witness :
    (∀ pr ∈ (fun (_ : String) (_ : List Paper) => ([] : List (Paper × ℝ))) "q"
        (validPapers (hybridDedup
          [{ paperId := "A", abstract := some "graph neural networks" },
            { paperId := "B" }])),
      pr.1 ∈ validPapers (hybridDedup
        [{ paperId := "A", abstract := some "graph neural networks" },
          { paperId := "B" }]))
    ∧ ∃ fused : List Paper,
        hybrid_rerank (fun _ _ => []) "q"
            [{ paperId := "A", abstract := some "graph neural networks" },
              { paperId := "B" }]
            = fused ++ (otherPapers (hybridDedup
                [{ paperId := "A", abstract := some "graph neural networks" },
                  { paperId := "B" }])).map (setSim 0)
        ∧ (∀ p ∈ fused, usable p.abstract = true ∧ p.semantic_similarity ≠ none)
        ∧ (∀ p ∈ (otherPapers (hybridDedup
              [{ paperId := "A", abstract := some "graph neural networks" },
                { paperId := "B" }])).map (setSim 0),
            usable p.abstract = false ∧ p.semantic_similarity = some 0)
        ∧ (∀ p ∈ hybrid_rerank (fun _ _ => []) "q"
              [{ paperId := "A", abstract := some "graph neural networks" },
                { paperId := "B" }],
            p.semantic_similarity ≠ none) :=
  ⟨by simp,
    hybrid_rerank_output_structure (fun _ _ => []) "q"
      [{ paperId := "A", abstract := some "graph neural networks" },
        { paperId := "B" }] (by simp)⟩

/-- The grouping key `str(paper.get("year", "Unknown"))` in `search_papers`
(`src/backend/routes.py`): a missing `year` key gives the default
`"Unknown"`, a present `null` value gives the Python `None` object whose
`str` is `"None"`, and an integer is stringified. -/
def yearKey (p : Paper) : String :=
  match p.year with
  | .absent => "Unknown"
  | .null => "None"
  | .value y => toString y

/-- One iteration of the grouping loop: create the bucket on first sight
(`final_data[year] = []`, which appends the new key at the end of the
insertion-ordered dict), then append the paper. -/
def addToGroups (m : List (String × List Paper)) (k : String) (p : Paper) :
    List (String × List Paper) :=
  match m with
  | [] => [(k, [p])]
  | (k', ps) :: rest =>
    if k' = k then (k', ps ++ [p]) :: rest
    else (k', ps) :: addToGroups rest k p

/-- The `final_data` dict after the grouping loop, as an insertion-ordered
association list. -/
def buildGroups (papers : List Paper) : List (String × List Paper) :=
  papers.foldl (fun m p => addToGroups m (yearKey p) p) []

/-- `sorted_years = sorted(final_data.keys(), reverse=True)` followed by the
re-keyed dict comprehension: since the keys are unique this is exactly the
entries reordered by key descending. -/
def sortGroupsDesc (g : List (String × List Paper)) : List (String × List Paper) :=
  g.insertionSort (fun a b => b.1 ≤ a.1)

/-- Step 3 of `search_papers`: group the surviving papers by year and order
the year buckets descending. -/
def groupStage (papers : List Paper) : List (String × List Paper) :=
  sortGroupsDesc (buildGroups papers)

/-- Dict lookup on the association-list model. -/
def lookupG (k : String) : List (String × List Paper) → Option (List Paper)
  | [] => none
  | (k', ps) :: rest => if k' = k then some ps else lookupG k rest

lemma addToGroups_lookup (m : List (String × List Paper)) (k : String) (p : Paper)
    (k' : String) :
    lookupG k' (addToGroups m k p)
      = if k' = k then some ((lookupG k m).getD [] ++ [p]) else lookupG k' m := by
  induction m with
  | nil =>
    by_cases h : k' = k
    · subst h
      simp [addToGroups, lookupG]
    · simp [addToGroups, lookupG, h, Ne.symm h]
  | cons e rest ih =>
    obtain ⟨k₀, ps₀⟩ := e
    by_cases h0 : k₀ = k
    · subst h0
      by_cases h' : k' = k₀
      · subst h'
        simp [addToGroups, lookupG]
      · simp [addToGroups, lookupG, h', Ne.symm h']
    · by_cases h1 : k₀ = k'
      · subst h1
        simp [addToGroups, lookupG, h0]
      · simp [addToGroups, lookupG, h0, h1, ih]

/-- Every bucket only holds papers whose key is the bucket key. -/
def GroupsOk (m : List (String × List Paper)) : Prop :=
  ∀ e ∈ m, ∀ q ∈ e.2, yearKey q = e.1

lemma addToGroups_ok {m : List (String × List Paper)} {k : String} {p : Paper}
    (hm : GroupsOk m) (hp : yearKey p = k) : GroupsOk (addToGroups m k p) := by
  induction m with
  | nil =>
    intro e he q hq
    simp only [addToGroups, List.mem_singleton] at he
    subst he
    simp only [List.mem_singleton] at hq
    subst hq
    exact hp
  | cons e₀ rest ih =>
    obtain ⟨k₀, ps₀⟩ := e₀
    by_cases h0 : k₀ = k
    · subst h0
      intro e he q hq
      rw [addToGroups, if_pos rfl] at he
      rcases List.mem_cons.mp he with h' | h'
      · rw [h'] at hq ⊢
        dsimp only at hq ⊢
        rcases List.mem_append.mp hq with hq2 | hq2
        · exact hm (k₀, ps₀) (List.mem_cons_self _ _) q hq2
        · rw [List.mem_singleton] at hq2
          rw [hq2]
          exact hp
      · exact hm e (List.mem_cons_of_mem _ h') q hq
    · intro e he q hq
      rw [addToGroups] at he
      simp only [if_neg h0, List.mem_cons] at he
      rcases he with rfl | he
      · exact hm (k₀, ps₀) (List.mem_cons_self _ _) q hq
      · exact ih (fun e' he' => hm e' (List.mem_cons_of_mem _ he')) e he q hq

lemma buildGroups_fold_ok (papers : List Paper) :
    ∀ m : List (String × List Paper), GroupsOk m →
      GroupsOk (papers.foldl (fun m p => addToGroups m (yearKey p) p) m) := by
  induction papers with
  | nil => intro m hm; exact hm
  | cons p rest ih =>
    intro m hm
    rw [List.foldl_cons]
    exact ih _ (addToGroups_ok hm rfl)

/-- A bucket, once present, persists through the rest of the fold and only
grows. -/
lemma lookupG_fold_persist (papers : List Paper) :
    ∀ (m : List (String × List Paper)) (k : String) (ps : List Paper),
      lookupG k m = some ps →
      ∃ ps', lookupG k (papers.foldl (fun m p => addToGroups m (yearKey p) p) m)
          = some ps' ∧ ∀ q ∈ ps, q ∈ ps' := by
  induction papers with
  | nil =>
    intro m k ps h
    exact ⟨ps, h, fun q hq => hq⟩
  | cons p rest ih =>
    intro m k ps h
    rw [List.foldl_cons]
    by_cases hk : k = yearKey p
    · subst hk
      have h1 : lookupG (yearKey p) (addToGroups m (yearKey p) p) = some (ps ++ [p]) := by
        rw [addToGroups_lookup, if_pos rfl, h, Option.getD_some]
      obtain ⟨ps', hps', hsub⟩ := ih _ _ _ h1
      exact ⟨ps', hps', fun q hq => hsub q (List.mem_append_left _ hq)⟩
    · have h1 : lookupG k (addToGroups m (yearKey p) p) = some ps := by
        rw [addToGroups_lookup, if_neg hk]
        exact h
      exact ih _ _ _ h1

/-- Every processed paper ends up in the bucket of its key. -/
lemma buildGroups_fold_mem (papers : List Paper) :
    ∀ (m : List (String × List Paper)) (p : Paper), p ∈ papers →
      ∃ ps, lookupG (yearKey p) (papers.foldl (fun m p => addToGroups m (yearKey p) p) m)
          = some ps ∧ p ∈ ps := by
  induction papers with
  | nil => intro m p hp; exact absurd hp (List.not_mem_nil p)
  | cons q rest ih =>
    intro m p hp
    rw [List.foldl_cons]
    rcases List.mem_cons.mp hp with rfl | hp'
    · have h1 : lookupG (yearKey p) (addToGroups m (yearKey p) p)
          = some ((lookupG (yearKey p) m).getD [] ++ [p]) := by
        rw [addToGroups_lookup, if_pos rfl]
      obtain ⟨ps', hps', hsub⟩ := lookupG_fold_persist rest _ _ _ h1
      exact ⟨ps', hps', hsub p (List.mem_append_right _ (List.mem_singleton.mpr rfl))⟩
    · exact ih _ p hp'

lemma lookupG_some_mem : ∀ (m : List (String × List Paper)) (k : String)
    (ps : List Paper), lookupG k m = some ps → (k, ps) ∈ m := by
  intro m
  induction m with
  | nil => intro k ps h; exact absurd h (by simp [lookupG])
  | cons e rest ih =>
    obtain ⟨k₀, ps₀⟩ := e
    intro k ps h
    rw [lookupG] at h
    by_cases h0 : k₀ = k
    · subst h0
      rw [if_pos rfl] at h
      exact (Option.some_inj.mp h) ▸ List.mem_cons_self _ _
    · rw [if_neg h0] at h
      exact List.mem_cons_of_mem _ (ih k ps h)

/-- C5 (counterexample) -- A surviving paper whose `year` key is present but
null is bucketed under the key `"None"`, not `"Unknown"`:
`paper.get("year", "Unknown")` only falls back to the default when the key
is missing, and `str(None)` is `"None"`. -/
theorem null_year_groups_under_none :
    groupStage [{ paperId := "A", year := .null }]
      = [("None", [{ paperId := "A", year := .null }])]
    ∧ yearKey { paperId := "A", year := .null } ≠ "Unknown" := by
  constructor
  · rfl
  · decide

/-- C5 (amended) -- Year grouping drops no surviving paper: every paper
lands in the bucket of its own key and in no other bucket, where the key of
a paper with a missing `year` is `"Unknown"` and the key of a paper with a
null `year` is `"None"`. -/
theorem year_grouping_buckets :
    (∀ (papers : List Paper) (p : Paper), p ∈ papers →
        (∃ ps, (yearKey p, ps) ∈ groupStage papers ∧ p ∈ ps)
        ∧ (∀ (k : String) (ps : List Paper),
            (k, ps) ∈ groupStage papers → p ∈ ps → k = yearKey p))
    ∧ (∀ q : Paper, q.year = .absent → yearKey q = "Unknown")
    ∧ (∀ q : Paper, q.year = .null → yearKey q = "None") := by
  refine ⟨?_, ?_, ?_⟩
  · intro papers p hp
    have hperm : List.Perm (groupStage papers) (buildGroups papers) := by
      unfold groupStage sortGroupsDesc
      exact List.perm_insertionSort _ _
    constructor
    · obtain ⟨ps, hps, hmem⟩ := buildGroups_fold_mem papers [] p hp
      exact ⟨ps, hperm.mem_iff.mpr (lookupG_some_mem _ _ _ hps), hmem⟩
    · intro k ps hkps hpps
      have hok : GroupsOk (buildGroups papers) :=
        buildGroups_fold_ok papers [] (fun e he => absurd he (List.not_mem_nil e))
      exact (hok (k, ps) (hperm.mem_iff.mp hkps) p hpps).symm
  · intro q hq
    simp [yearKey, hq]
  · intro q hq
    simp [yearKey, hq]

/-- Witness for the amended C5: a single paper with a missing year lands in
the `"Unknown"` bucket and nowhere else. -/
theorem year_grouping_buckets_witness :
    ({ paperId := "A" } : Paper) ∈ [({ paperId := "A" } : Paper)]
    ∧ ((∃ ps, (yearKey ({ paperId := "A" } : Paper), ps)
            ∈ groupStage [{ paperId := "A" }]
          ∧ ({ paperId := "A" } : Paper) ∈ ps)
        ∧ (∀ (k : String) (ps : List Paper),
            (k, ps) ∈ groupStage [{ paperId := "A" }]
            → ({ paperId := "A" } : Paper) ∈ ps
            → k = yearKey ({ paperId := "A" } : Paper))) :=
  ⟨List.mem_singleton.mpr rfl,
    year_grouping_buckets.1 [{ paperId := "A" }] { paperId := "A" }
      (List.mem_singleton.mpr rfl)⟩

/-- `x.get("hybrid_score", 0.0)`, the sort key in `filter_papers`. -/
noncomputable def scoreKey (p : Paper) : ℝ := p.hybrid_score.getD 0

/-- One iteration of the scoring loop in `filter_papers`:
`paper["hybrid_score"] = calculate_hybrid_score(paper)`, `none` when the
score computation raises. -/
noncomputable def addScore (currentYear : Int) (p : Paper) : Option Paper :=
  (calculate_hybrid_score currentYear p).map
    (fun s => { p with hybrid_score := some s })

/-- The scoring loop over the whole list; a raise aborts the call. -/
noncomputable def scoreAll (currentYear : Int) : List Paper → Option (List Paper)
  | [] => some []
  | p :: ps =>
    match addScore currentYear p with
    | none => none
    | some q => (scoreAll currentYear ps).map (fun qs => q :: qs)

/-- `sorted(papers, key=..., reverse=True)` orders papers so that an earlier
paper has a sort key at least the later one's. -/
def scoreGE (a b : Paper) : Prop := scoreKey b ≤ scoreKey a

noncomputable instance : DecidableRel scoreGE :=
  fun a b => inferInstanceAs (Decidable (scoreKey b ≤ scoreKey a))

instance : IsTotal Paper scoreGE := ⟨fun a b => le_total (scoreKey b) (scoreKey a)⟩

instance : IsTrans Paper scoreGE := ⟨fun _ _ _ hab hbc => le_trans hbc hab⟩

/-- `filter_papers` from `src/backend/routes.py`: score every paper, sort
by `hybrid_score` descending and keep the first 30. -/
noncomputable def filter_papers (currentYear : Int) (papers : List Paper) :
    Option (List Paper) :=
  (scoreAll currentYear papers).map
    (fun scored => (scored.insertionSort scoreGE).take 30)

lemma calc_ne_none (currentYear : Int) (p : Paper)
    (hy : p.year ≠ JsonField.value (currentYear + 1)) :
    calculate_hybrid_score currentYear p ≠ none := by
  unfold calculate_hybrid_score
  cases h : p.year with
  | absent => simp [JsonField.toOption]
  | null => simp [JsonField.toOption]
  | value y =>
    have hd : currentYear - y + 1 ≠ 0 := by
      intro hc
      have hyv : y = currentYear + 1 := by omega
      rw [hyv] at h
      exact hy h
    simp [JsonField.toOption, hd]

lemma scoreAll_ok (currentYear : Int) : ∀ l : List Paper,
    (∀ p ∈ l, p.year ≠ JsonField.value (currentYear + 1)) →
    ∃ scored : List Paper, scoreAll currentYear l = some scored
      ∧ scored.length = l.length := by
  intro l
  induction l with
  | nil => intro _; exact ⟨[], rfl, rfl⟩
  | cons p ps ih =>
    intro hall
    have hp : calculate_hybrid_score currentYear p ≠ none :=
      calc_ne_none currentYear p (hall p (List.mem_cons_self _ _))
    obtain ⟨s, hs⟩ := Option.ne_none_iff_exists'.mp hp
    obtain ⟨scored, hsc, hlen⟩ := ih (fun q hq => hall q (List.mem_cons_of_mem _ hq))
    refine ⟨{ p with hybrid_score := some s } :: scored, ?_, by simp [hlen]⟩
    rw [scoreAll, addScore, hs]
    simp [hsc]

/-- C9 -- Provided scoring succeeds for every paper (no paper is dated
exactly one year after the current year), `filter_papers` returns the first
30 of the descending sort of the scored papers: exactly `min n 30` papers,
sorted by score descending, each scoring at least as much as every excluded
paper. -/
theorem filter_papers_top30 (currentYear : Int) (papers : List Paper)
    (hyr : ∀ p ∈ papers, p.year ≠ JsonField.value (currentYear + 1)) :
    ∃ scored : List Paper,
      scoreAll currentYear papers = some scored
      ∧ filter_papers currentYear papers
          = some ((scored.insertionSort scoreGE).take 30)
      ∧ ((scored.insertionSort scoreGE).take 30).length = min papers.length 30
      ∧ List.Sorted scoreGE ((scored.insertionSort scoreGE).take 30)
      ∧ ∀ a ∈ (scored.insertionSort scoreGE).take 30,
          ∀ b ∈ (scored.insertionSort scoreGE).drop 30,
            scoreKey b ≤ scoreKey a := by
  obtain ⟨scored, hsc, hlen⟩ := scoreAll_ok currentYear papers hyr
  have hsorted := List.sorted_insertionSort scoreGE scored
  refine ⟨scored, hsc, ?_, ?_, ?_, ?_⟩
  · unfold filter_papers
    rw [hsc]
    rfl
  · rw [List.length_take, List.length_insertionSort, hlen]
    exact Nat.min_comm _ _
  · exact List.Pairwise.sublist (List.take_sublist 30 _) hsorted
  · have h2 := hsorted
    rw [← List.take_append_drop 30 (scored.insertionSort scoreGE)] at h2
    obtain ⟨-, -, h3⟩ := List.pairwise_append.mp h2
    exact fun a ha b hb => h3 a ha b hb

/-- Witness for C9: two papers with valid years, current year 2025. -/
theorem filter_papers_top30_witness :
    (∀ p ∈ [({ paperId := "A", year := .value 2020, citationCount := .value 100 } : Paper),
        { paperId := "B", year := .value 2021 }],
      p.year ≠ JsonField.value (2025 + 1))
    ∧ ∃ scored : List Paper,
        scoreAll 2025
            [{ paperId := "A", year := .value 2020, citationCount := .value 100 },
              { paperId := "B", year := .value 2021 }] = some scored
        ∧ filter_papers 2025
              [{ paperId := "A", year := .value 2020, citationCount := .value 100 },
                { paperId := "B", year := .value 2021 }]
            = some ((scored.insertionSort scoreGE).take 30)
        ∧ ((scored.insertionSort scoreGE).take 30).length = min 2 30
        ∧ List.Sorted scoreGE ((scored.insertionSort scoreGE).take 30)
        ∧ ∀ a ∈ (scored.insertionSort scoreGE).take 30,
            ∀ b ∈ (scored.insertionSort scoreGE).drop 30,
              scoreKey b ≤ scoreKey a :=
  ⟨by decide,
    filter_papers_top30 2025
      [{ paperId := "A", year := .value 2020, citationCount := .value 100 },
        { paperId := "B", year := .value 2021 }] (by decide)⟩

/-!
Heap-level model for the frame/mutation behaviour.  Python dicts are
reference values: the caller's list holds references into a store, and
`paper[k] = v` mutates the referenced dict while `p.copy()` allocates a
fresh one.  `Store` is the store of paper dicts (`mem`) together with the
next fresh address (`next`); the pipeline functions are re-expressed over
addresses so that aliasing and copying are observable.
-/

structure Store where
  mem : Nat → Paper
  next : Nat

/-- In-place mutation of the dict at address `a`. -/
def Store.write (h : Store) (a : Nat) (p : Paper) : Store :=
  ⟨Function.update h.mem a p, h.next⟩

/-- Allocation of a list of fresh dicts (e.g. `dict.copy()` results),
returning their addresses. -/
def Store.allocList : Store → List Paper → List Nat × Store
  | h, [] => ([], h)
  | h, v :: vs =>
    let res := Store.allocList ⟨Function.update h.mem h.next v, h.next + 1⟩ vs
    (h.next :: res.1, res.2)

/-- The deduplication loop of `hybrid_rerank` over addresses: ids are read
through the store, and the kept entries are the original references. -/
def dedupAddrsGo (st : Nat → Paper) (seen : List String) : List Nat → List Nat
  | [] => []
  | a :: as =>
    if (st a).paperId ∈ seen then dedupAddrsGo st seen as
    else a :: dedupAddrsGo st ((st a).paperId :: seen) as

/-- `HybridSearcher.hybrid_rerank` at the heap level.  In the branch with no
valid paper the code mutates the original dicts
(`p['semantic_similarity'] = 0.0`) and returns those same references;
otherwise it returns freshly allocated copies (`.copy()` of node metadata
`original_data`, and `p.copy()` for the abstract-less papers) and leaves the
inputs untouched. -/
def hybrid_rerank_heap (fuse : String → List Paper → List (Paper × ℝ))
    (query : String) (addrs : List Nat) (h : Store) : List Nat × Store :=
  let uniqueA := dedupAddrsGo h.mem [] addrs
  let validA := uniqueA.filter (fun a => usable (h.mem a).abstract)
  let otherA := uniqueA.filter (fun a => !(usable (h.mem a).abstract))
  if validA.isEmpty then
    (otherA, otherA.foldl (fun hh a => hh.write a (setSim 0 (hh.mem a))) h)
  else
    let fusedVals := (fuse query (validA.map h.mem)).map (fun pr => setSim pr.2 pr.1)
    let res1 := h.allocList fusedVals
    let res2 := res1.2.allocList (otherA.map (fun a => setSim 0 (h.mem a)))
    (res1.1 ++ res2.1, res2.2)

/-- The scoring loop of `filter_papers` at the heap level:
`paper["hybrid_score"] = calculate_hybrid_score(paper)` mutates each input
dict in place; `none` models the loop raising. -/
noncomputable def scoreWriteLoop (currentYear : Int) : List Nat → Store → Option Store
  | [], h => some h
  | a :: as, h =>
    match calculate_hybrid_score currentYear (h.mem a) with
    | none => none
    | some s =>
      scoreWriteLoop currentYear as (h.write a { h.mem a with hybrid_score := some s })

/-- `filter_papers` at the heap level: mutate every input dict with its
score, then sort the references by the written score, descending, and keep
30 (Python `sorted` builds a new list and mutates nothing). -/
noncomputable def filter_papers_heap (currentYear : Int) (addrs : List Nat)
    (h : Store) : Option (List Nat × Store) :=
  (scoreWriteLoop currentYear addrs h).map
    (fun h' =>
      ((addrs.insertionSort
          (fun a b => scoreKey (h'.mem b) ≤ scoreKey (h'.mem a))).take 30, h'))

/-- The value written into a dict by the scoring loop. -/
noncomputable def writeScore (currentYear : Int) (p : Paper) : Paper :=
  { p with hybrid_score := some ((calculate_hybrid_score currentYear p).getD 0) }

lemma foldWrite_mem (f : Paper → Paper) (hf : ∀ p, f (f p) = f p) :
    ∀ (l : List Nat) (h : Store) (x : Nat),
      (l.foldl (fun hh a => hh.write a (f (hh.mem a))) h).mem x
        = if x ∈ l then f (h.mem x) else h.mem x := by
  intro l
  induction l with
  | nil => intro h x; simp
  | cons a as ih =>
    intro h x
    rw [List.foldl_cons, ih]
    simp only [Store.write, Function.update_apply, List.mem_cons]
    by_cases hx2 : x = a
    · simp [hx2, hf]
    · simp [hx2]

lemma allocList_next : ∀ (vs : List Paper) (h : Store),
    h.next ≤ (Store.allocList h vs).2.next := by
  intro vs
  induction vs with
  | nil => intro h; exact le_refl _
  | cons v vs ih =>
    intro h
    exact le_trans (Nat.le_succ _) (ih ⟨Function.update h.mem h.next v, h.next + 1⟩)

lemma allocList_mem_lt : ∀ (vs : List Paper) (h : Store) (x : Nat),
    x < h.next → (Store.allocList h vs).2.mem x = h.mem x := by
  intro vs
  induction vs with
  | nil => intro h x _; rfl
  | cons v vs ih =>
    intro h x hx
    rw [Store.allocList]
    have : (Store.allocList ⟨Function.update h.mem h.next v, h.next + 1⟩ vs).2.mem x
        = Function.update h.mem h.next v x :=
      ih ⟨Function.update h.mem h.next v, h.next + 1⟩ x (Nat.lt_succ_of_lt hx)
    rw [this, Function.update_apply, if_neg (Nat.ne_of_lt hx)]

lemma allocList_addrs_ge : ∀ (vs : List Paper) (h : Store) (a : Nat),
    a ∈ (Store.allocList h vs).1 → h.next ≤ a := by
  intro vs
  induction vs with
  | nil => intro h a ha; exact absurd ha (List.not_mem_nil a)
  | cons v vs ih =>
    intro h a ha
    rw [Store.allocList] at ha
    rcases List.mem_cons.mp ha with rfl | ha'
    · exact le_refl _
    · exact le_trans (Nat.le_succ _)
        (ih ⟨Function.update h.mem h.next v, h.next + 1⟩ a ha')

lemma dedupAddrsGo_subset (st : Nat → Paper) :
    ∀ (l : List Nat) (seen : List String) (a : Nat),
      a ∈ dedupAddrsGo st seen l → a ∈ l := by
  intro l
  induction l with
  | nil => intro seen a ha; exact absurd ha (List.not_mem_nil a)
  | cons b bs ih =>
    intro seen a ha
    rw [dedupAddrsGo] at ha
    by_cases hb : (st b).paperId ∈ seen
    · rw [if_pos hb] at ha
      exact List.mem_cons_of_mem _ (ih seen a ha)
    · rw [if_neg hb] at ha
      rcases List.mem_cons.mp ha with rfl | ha'
      · exact List.mem_cons_self _ _
      · exact List.mem_cons_of_mem _ (ih _ a ha')

lemma calc_write_invariant (currentYear : Int) (p : Paper) (v : Option ℝ) :
    calculate_hybrid_score currentYear { p with hybrid_score := v }
      = calculate_hybrid_score currentYear p := rfl

lemma writeScore_idem (currentYear : Int) (p : Paper) :
    writeScore currentYear (writeScore currentYear p) = writeScore currentYear p := rfl

lemma scoreWriteLoop_char (currentYear : Int) : ∀ (l : List Nat) (h : Store),
    (∀ a ∈ l, (h.mem a).year ≠ JsonField.value (currentYear + 1)) →
    ∃ h', scoreWriteLoop currentYear l h = some h'
      ∧ ∀ x, h'.mem x
          = if x ∈ l then writeScore currentYear (h.mem x) else h.mem x := by
  intro l
  induction l with
  | nil =>
    intro h _
    exact ⟨h, rfl, fun x => by simp⟩
  | cons a as ih =>
    intro h hall
    obtain ⟨s, hs⟩ := Option.ne_none_iff_exists'.mp
      (calc_ne_none currentYear (h.mem a) (hall a (List.mem_cons_self _ _)))
    have hws : { h.mem a with hybrid_score := some s } = writeScore currentYear (h.mem a) := by
      rw [writeScore, hs, Option.getD_some]
    have hyears : ∀ b ∈ as,
        ((h.write a (writeScore currentYear (h.mem a))).mem b).year
          ≠ JsonField.value (currentYear + 1) := by
      intro b hb
      show (Function.update h.mem a (writeScore currentYear (h.mem a)) b).year ≠ _
      rw [Function.update_apply]
      by_cases hba : b = a
      · rw [if_pos hba]
        exact hall a (List.mem_cons_self _ _)
      · rw [if_neg hba]
        exact hall b (List.mem_cons_of_mem _ hb)
    obtain ⟨h', hloop, hchar⟩ := ih (h.write a (writeScore currentYear (h.mem a))) hyears
    refine ⟨h', ?_, ?_⟩
    · rw [scoreWriteLoop, hs]
      show scoreWriteLoop currentYear as
          (h.write a { h.mem a with hybrid_score := some s }) = some h'
      rw [hws]
      exact hloop
    · intro x
      rw [hchar x]
      show (if x ∈ as then
          writeScore currentYear (Function.update h.mem a (writeScore currentYear (h.mem a)) x)
        else Function.update h.mem a (writeScore currentYear (h.mem a)) x)
          = if x ∈ a :: as then writeScore currentYear (h.mem x) else h.mem x
      rw [Function.update_apply]
      simp only [List.mem_cons]
      by_cases hxa : x = a
      · simp [hxa, writeScore_idem]
      · simp [hxa]

/-- What `filter_papers` does to its caller's dicts: the scoring loop
succeeds and writes `hybrid_score` into every input dict in place (all
other dicts untouched), and the returned list is a new list of the same
references. -/
noncomputable def FilterHeapWrites (currentYear : Int) (addrs : List Nat)
    (h : Store) : Prop :=
  ∃ h' : Store,
    scoreWriteLoop currentYear addrs h = some h'
    ∧ filter_papers_heap currentYear addrs h
        = some ((addrs.insertionSort
            (fun a b => scoreKey (h'.mem b) ≤ scoreKey (h'.mem a))).take 30, h')
    ∧ (∀ x, h'.mem x = if x ∈ addrs then writeScore currentYear (h.mem x) else h.mem x)
    ∧ (∀ x ∈ addrs, (h'.mem x).hybrid_score ≠ none)

/-- What `hybrid_rerank` does to its caller's dicts: in the no-valid-paper
branch it returns the original references after writing
`semantic_similarity = 0.0` into exactly those dicts; in every other branch
it leaves all pre-existing dicts unmodified and returns only freshly
allocated copies. -/
def RerankHeapFrame (fuse : String → List Paper → List (Paper × ℝ)) (query : String)
    (addrs : List Nat) (h : Store) : Prop :=
  ((dedupAddrsGo h.mem [] addrs).filter (fun a => usable (h.mem a).abstract) = [] →
      (hybrid_rerank_heap fuse query addrs h).1
          = (dedupAddrsGo h.mem [] addrs).filter (fun a => !(usable (h.mem a).abstract))
      ∧ (∀ a ∈ (hybrid_rerank_heap fuse query addrs h).1, a ∈ addrs)
      ∧ (∀ x, (hybrid_rerank_heap fuse query addrs h).2.mem x
          = if x ∈ (dedupAddrsGo h.mem [] addrs).filter
                (fun a => !(usable (h.mem a).abstract))
            then setSim 0 (h.mem x) else h.mem x))
  ∧ ((dedupAddrsGo h.mem [] addrs).filter (fun a => usable (h.mem a).abstract) ≠ [] →
      (∀ x, x < h.next → (hybrid_rerank_heap fuse query addrs h).2.mem x = h.mem x)
      ∧ (∀ a ∈ (hybrid_rerank_heap fuse query addrs h).1, h.next ≤ a))

/-- C10 -- The pipeline mutates caller dicts in place exactly as described:
`filter_papers` writes `hybrid_score` into every input dict (when scoring
succeeds), and `hybrid_rerank` writes `semantic_similarity = 0.0` into the
original dicts and returns them in the branch with no usable abstract,
while in every other branch its outputs are fresh copies and the inputs are
left unmodified. -/
theorem pipeline_mutation_frame (currentYear : Int)
    (fuse : String → List Paper → List (Paper × ℝ)) (query : String)
    (addrs : List Nat) (h : Store)
    (hyr : ∀ a ∈ addrs, (h.mem a).year ≠ JsonField.value (currentYear + 1)) :
    FilterHeapWrites currentYear addrs h ∧ RerankHeapFrame fuse query addrs h := by
  constructor
  · obtain ⟨h', hloop, hchar⟩ := scoreWriteLoop_char currentYear addrs h hyr
    refine ⟨h', hloop, ?_, hchar, ?_⟩
    · unfold filter_papers_heap
      rw [hloop]
      rfl
    · intro x hx
      rw [hchar x, if_pos hx]
      simp [writeScore]
  · constructor
    · intro hv
      have hcond : ((dedupAddrsGo h.mem [] addrs).filter
          (fun a => usable (h.mem a).abstract)).isEmpty = true := by
        rw [hv]
        rfl
      refine ⟨?_, ?_, ?_⟩
      · simp only [hybrid_rerank_heap, hcond, if_true]
      · intro a ha
        simp only [hybrid_rerank_heap, hcond, if_true] at ha
        exact dedupAddrsGo_subset h.mem addrs [] a (List.mem_filter.mp ha).1
      · intro x
        simp only [hybrid_rerank_heap, hcond, if_true]
        exact foldWrite_mem (setSim 0) (fun p => rfl) _ h x
    · intro hv
      have hcond : ((dedupAddrsGo h.mem [] addrs).filter
          (fun a => usable (h.mem a).abstract)).isEmpty = false := by
        cases hval : (dedupAddrsGo h.mem [] addrs).filter
            (fun a => usable (h.mem a).abstract) with
        | nil => exact absurd hval hv
        | cons b bs => rfl
      refine ⟨?_, ?_⟩
      · intro x hx
        simp only [hybrid_rerank_heap, hcond, Bool.false_eq_true, if_false]
        exact (allocList_mem_lt _ _ x
            (lt_of_lt_of_le hx (allocList_next _ h))).trans
          (allocList_mem_lt _ h x hx)
      · intro a ha
        simp only [hybrid_rerank_heap, hcond, Bool.false_eq_true, if_false] at ha
        rcases List.mem_append.mp ha with h1 | h2
        · exact allocList_addrs_ge _ h a h1
        · exact le_trans (allocList_next _ h) (allocList_addrs_ge _ _ a h2)

/-- Witness for C10: one paper at address 0 with a valid year and no
abstract (exercising the in-place branch), with the empty retriever
oracle. -/
theorem pipeline_mutation_frame_witness :
    (∀ a ∈ [0],
      ((Store.mk (fun _ => { paperId := "A", year := .value 2020 }) 1).mem a).year
        ≠ JsonField.value (2025 + 1))
    ∧ (FilterHeapWrites 2025 [0]
          (Store.mk (fun _ => { paperId := "A", year := .value 2020 }) 1)
        ∧ RerankHeapFrame (fun _ _ => []) "q" [0]
            (Store.mk (fun _ => { paperId := "A", year := .value 2020 }) 1)) :=
  ⟨by decide,
    pipeline_mutation_frame 2025 (fun _ _ => []) "q" [0]
      (Store.mk (fun _ => { paperId := "A", year := .value 2020 }) 1) (by decide)⟩

/-- C9 (counterexample) -- On an input list containing a paper dated one
year after the current year, the scoring loop inside `filter_papers` raises
`ZeroDivisionError` (modelled as `none`): `filter_papers` returns nothing
rather than `min(n, 30)` papers, so the top-30 property does not hold for
every input list. -/
theorem filter_papers_raises_future_year :
    filter_papers 2025 [{ paperId := "A", year := .value 2026 }] = none := by
  have hc : calculate_hybrid_score 2025 { paperId := "A", year := .value 2026 } = none := by
    unfold calculate_hybrid_score
    norm_num [JsonField.toOption]
  unfold filter_papers
  rw [scoreAll, addScore, hc]
  rfl

/-- C10 (counterexample) -- With the caller's dict at address 0 dated one
year after the current year, the scoring loop of `filter_papers` raises
before assigning (modelled as `none`): the call never completes a pass that
writes `hybrid_score` into every input dict, and the dict still has no
`hybrid_score`.  So the in-place-write claim does not hold for every
input. -/
theorem heap_filter_raises_future_year :
    scoreWriteLoop 2025 [0]
        (Store.mk (fun _ => { paperId := "A", year := .value 2026 }) 1) = none
    ∧ filter_papers_heap 2025 [0]
        (Store.mk (fun _ => { paperId := "A", year := .value 2026 }) 1) = none
    ∧ ((Store.mk (fun _ => { paperId := "A", year := .value 2026 }) 1).mem 0).hybrid_score
        = none := by
  have hc : calculate_hybrid_score 2025
      ((Store.mk (fun _ => { paperId := "A", year := .value 2026 }) 1).mem 0) = none := by
    unfold calculate_hybrid_score
    norm_num [JsonField.toOption]
  have h1 : scoreWriteLoop 2025 [0]
      (Store.mk (fun _ => { paperId := "A", year := .value 2026 }) 1) = none := by
    rw [scoreWriteLoop, hc]
  refine ⟨h1, ?_, rfl⟩
  unfold filter_papers_heap
  rw [h1]
  rfl
